import Mathlib

/-!
Verification of the scene-tree child-list core (childrenHelperMixin).

The mixin manages the ordered `children` sequence of a scene-tree node
together with each child's `parent` back-reference, dirty flags, an
optional external layer index, and structural-change notifications.

Shallow embedding: nodes are identified by natural numbers; the mutable
object graph is a total function from node ids to node records, and each
operation threads this world explicitly, returning the final world, the
emitted notifications (each paired with a snapshot of the world at the
moment it was emitted), the calls made on the external layer index, and
either a return value or the thrown error.  Indices are `Int` because the
source takes JavaScript numbers, which may be negative or exceed the
array length.
-/

namespace PixiScene

abbrev NodeId := Nat

/-- A scene-tree node: the fields of `Container` that the mixin reads or
writes.  `layerGroup` records only whether the optional external layer
index is attached (its internals are out of scope). -/
structure Node where
  children : List NodeId
  parent : Option NodeId
  didChange : Bool
  didViewUpdate : Bool
  updateFlags : Nat
  sortChildren : Bool
  sortDirty : Bool
  layerGroup : Bool
deriving DecidableEq, Repr

/-- The object graph: every node id maps to a node record. -/
abbrev World := NodeId → Node

/-- Overwrite the record of one node. -/
def setNode (w : World) (x : NodeId) (n : Node) : World :=
  fun y => if y = x then n else w y

/-- The notification events the mixin emits, with their arguments.
`childRemoved p c i` is emitted on `p` with arguments `(c, p, i)`;
`removed c p` is emitted on `c` with argument `p`; likewise for the
added-side events. -/
inductive Event where
  | childRemoved (parent child : NodeId) (idx : Nat)
  | removed (child parentArg : NodeId)
  | childAdded (parent child : NodeId) (idx : Int)
  | added (child parentArg : NodeId)
deriving DecidableEq, Repr

/-- Calls made on the external layer index (`this.layerGroup`). -/
inductive LayerOp where
  | removeChild (parent child : NodeId)
  | addChild (parent child : NodeId)
deriving DecidableEq, Repr

/-- The two kinds of exception the source throws:
`throw new RangeError(...)` and `throw new Error(...)`. -/
inductive JsError where
  | rangeError (msg : String)
  | error (msg : String)
deriving DecidableEq, Repr

/-- One emitted notification together with the state of the world at the
moment it was emitted (what a listener would observe). -/
structure EmitRec where
  ev : Event
  snap : World

/-- The observable outcome of one operation: final world, notifications
in emission order, layer-index calls in order, and the return value or
thrown error. -/
structure OpOut (α : Type) where
  world : World
  events : List EmitRec
  layer : List LayerOp
  ret : Except JsError α

/-- Decidable test used to state error-atomicity claims. -/
def retFailed {α : Type} : Except JsError α → Bool
  | Except.ok _ => false
  | Except.error _ => true

/-- JavaScript array element access `arr[i]` with an `Int` index:
`undefined` (here `none`) when the index is negative or past the end. -/
def listGetI (l : List NodeId) (i : Int) : Option NodeId :=
  if i < 0 then none else l.get? i.toNat

/-- JavaScript `Array.prototype.indexOf`: index of the first occurrence,
`-1` when absent. -/
def jsIndexOf (l : List NodeId) (c : NodeId) : Int :=
  match l with
  | [] => -1
  | x :: xs =>
    if x = c then 0
    else
      let r := jsIndexOf xs c
      if r = -1 then -1 else r + 1

/-- JavaScript `arr.splice(n, 0, c)`: insert `c` at position `n`
(clamped to the end when `n` exceeds the length). -/
def spliceInsert (l : List NodeId) (n : Nat) (c : NodeId) : List NodeId :=
  l.take n ++ c :: l.drop n

/-- Modelled from the spec: the `removeItems` array utility is imported
from `utils/data/removeItems`, whose source is not part of this
fragment.  Per the spec (4.1) the bulk removal "performs one bulk
splice removing exactly that index range from `children`", i.e. it
removes the index range `[beginIdx, endIdx)` from the array. -/
def removeItems (l : List NodeId) (beginIdx endIdx : Nat) : List NodeId :=
  l.take beginIdx ++ l.drop endIdx

def rcErrMsg : String := "removeChildren: numeric values are outside the acceptable range."
def gcaErrMsg : String := "getChildAt: Index does not exist."
def sciErrMsg : String := "The index supplied is out of bounds."
def gciErrMsg : String := "The supplied Container must be a child of the caller"
def acaErrMsg : String := "addChildAt: The index supplied is out of bounds."

/-- The descending detachment loop of `removeChildren`:
`for (let i = end - 1; i >= beginIndex; i--)`.  `fuel` is the number of
remaining iterations (`i - beginIndex + 1` at entry) and `i` the current
index.  Each iteration reads `this.children[i]` (skipping `undefined`
holes past the end), records a layer-index detach when a layer index is
attached, appends the child to the removal list, and clears its parent
back-reference.  The `children` array itself is not mutated during the
loop, so it is passed as the immutable `childrenArr`. -/
def rcLoop (p : NodeId) (childrenArr : List NodeId) :
    Nat → Int → World → List NodeId → List LayerOp →
    World × List NodeId × List LayerOp
  | 0, _, w, removed, lops => (w, removed, lops)
  | fuel + 1, i, w, removed, lops =>
    match listGetI childrenArr i with
    | none => rcLoop p childrenArr fuel (i - 1) w removed lops
    | some c =>
      let lops' := lops ++ (if (w p).layerGroup then [LayerOp.removeChild p c] else [])
      let removed' := removed ++ [c]
      let w' := setNode w c { w c with parent := none }
      rcLoop p childrenArr fuel (i - 1) w' removed' lops'

/-- The notification loop of `removeChildren`:
`for (let i = 0; i < removed.length; ++i)` emitting `childRemoved` on
the parent (batch position `i` as positional argument) and then
`removed` on the child.  Emission does not mutate the world, so every
record snapshots `w`. -/
def emitLoop (p : NodeId) (w : World) (removed : List NodeId) (i : Nat) : List EmitRec :=
  if h : i < removed.length then
    ⟨Event.childRemoved p (removed.get ⟨i, h⟩) i, w⟩ ::
      ⟨Event.removed (removed.get ⟨i, h⟩) p, w⟩ ::
        emitLoop p w removed (i + 1)
  else []
termination_by removed.length - i

/-- `removeChildren(beginIndex = 0, endIndex?)`. -/
def removeChildren (w : World) (p : NodeId) (beginIndex : Int) (endIndex : Option Int) :
    OpOut (List NodeId) :=
  let children := (w p).children
  let endI := endIndex.getD (children.length : Int)
  let range := endI - beginIndex
  if 0 < range ∧ range ≤ endI then
    let res := rcLoop p children range.toNat (endI - 1) w [] []
    let w2 := setNode res.1 p { res.1 p with children := removeItems children beginIndex.toNat endI.toNat }
    ⟨w2, emitLoop p w2 res.2.1 0, res.2.2, Except.ok res.2.1⟩
  else if range = 0 ∧ children.length = 0 then
    ⟨w, [], [], Except.ok []⟩
  else
    ⟨w, [], [], Except.error (JsError.rangeError rcErrMsg)⟩

/-- `getChildAt(index)`: throws when `index < 0 || index >= length`,
otherwise returns `children[index]`.  Pure (the world is unchanged). -/
def getChildAt (w : World) (p : NodeId) (index : Int) : OpOut NodeId :=
  if index < 0 ∨ ((w p).children.length : Int) ≤ index then
    ⟨w, [], [], Except.error (JsError.error gcaErrMsg)⟩
  else
    ⟨w, [], [], Except.ok ((w p).children.getD index.toNat 0)⟩

/-- `getChildIndex(child)`: `indexOf`, throwing when the child is not a
member.  Pure. -/
def getChildIndex (w : World) (p c : NodeId) : OpOut Int :=
  let index := jsIndexOf (w p).children c
  if index = -1 then ⟨w, [], [], Except.error (JsError.error gciErrMsg)⟩
  else ⟨w, [], [], Except.ok index⟩

/-- Modelled from the spec: `removeChild` is an external collaborator
(declared in the mixin interface but implemented elsewhere).  Per the
spec (6) it "removes each listed child if currently a member, emitting
'removed'/'childRemoved' per child; removing a non-member child is a
no-op for that child, not an error", keeping the layer index in sync;
per spec (2) structural committal precedes notification. -/
def removeChild (w : World) (p c : NodeId) : OpOut NodeId :=
  let index := jsIndexOf (w p).children c
  if index = -1 then ⟨w, [], [], Except.ok c⟩
  else
    let lops := if (w p).layerGroup then [LayerOp.removeChild p c] else []
    let w1 := setNode w p { w p with children := (w p).children.eraseIdx index.toNat }
    let w2 := setNode w1 c { w1 c with parent := none }
    ⟨w2, [⟨Event.childRemoved p c index.toNat, w2⟩, ⟨Event.removed c p, w2⟩], lops, Except.ok c⟩

/-- `removeChildAt(index)`: look the child up, then delegate to
`removeChild`, propagating either failure. -/
def removeChildAt (w : World) (p : NodeId) (index : Int) : OpOut NodeId :=
  match getChildAt w p index with
  | ⟨w1, evs, ls, Except.error e⟩ => ⟨w1, evs, ls, Except.error e⟩
  | ⟨w1, evs, ls, Except.ok c⟩ =>
    let r := removeChild w1 p c
    ⟨r.world, evs ++ r.events, ls ++ r.layer, r.ret⟩

/-- The unconditional tail of `addChildAt` once the early returns are
passed: insert into `this.children` (append when `index` equals the
current length, else shift-and-insert), set the parent back-reference
and dirty flags, mirror into the layer index, mark `sortDirty` when
custom sorting is on, then emit `childAdded` and `added`. -/
def addChildAtInsert (w : World) (p c : NodeId) (index : Int) : OpOut NodeId :=
  let children := (w p).children
  let newChildren :=
    if index = (children.length : Int) then children ++ [c]
    else spliceInsert children index.toNat c
  let w1 := setNode w p { w p with children := newChildren }
  let w2 := setNode w1 c
    { w1 c with parent := some p, didChange := true, didViewUpdate := false, updateFlags := 15 }
  let lops := if (w2 p).layerGroup then [LayerOp.addChild p c] else []
  let w3 := if (w2 p).sortChildren then setNode w2 p { w2 p with sortDirty := true } else w2
  ⟨w3, [⟨Event.childAdded p c index, w3⟩, ⟨Event.added c p, w3⟩], lops, Except.ok c⟩

/-- `addChildAt(child, index)`: bounds-check against `[0, length]`; if
the child already has a parent, return unchanged when it is `this` and
the child already sits at `index`, otherwise splice it out of its
current parent's array; then run the shared insertion tail. -/
def addChildAt (w : World) (p c : NodeId) (index : Int) : OpOut NodeId :=
  if index < 0 ∨ ((w p).children.length : Int) < index then
    ⟨w, [], [], Except.error (JsError.error acaErrMsg)⟩
  else
    match (w c).parent with
    | some q =>
      let currentIndex := jsIndexOf (w q).children c
      if q = p ∧ currentIndex = index then
        ⟨w, [], [], Except.ok c⟩
      else
        let w1 :=
          if currentIndex = -1 then w
          else setNode w q { w q with children := (w q).children.eraseIdx currentIndex.toNat }
        addChildAtInsert w1 p c index
    | none => addChildAtInsert w p c index

/-- `setChildIndex(child, index)`: bounds-check against `[0, length)`,
confirm membership via `getChildIndex`, then relocate via `addChildAt`. -/
def setChildIndex (w : World) (p c : NodeId) (index : Int) : OpOut Unit :=
  if index < 0 ∨ ((w p).children.length : Int) ≤ index then
    ⟨w, [], [], Except.error (JsError.error sciErrMsg)⟩
  else
    match getChildIndex w p c with
    | ⟨w1, evs, ls, Except.error e⟩ => ⟨w1, evs, ls, Except.error e⟩
    | ⟨w1, evs, ls, Except.ok _⟩ =>
      let r := addChildAt w1 p c index
      ⟨r.world, evs ++ r.events, ls ++ r.layer, r.ret.map fun _ => ()⟩

/-- `swapChildren(child, child2)`: identical arguments short-circuit;
otherwise resolve both positions via `getChildIndex` and exchange the
two slots in place. -/
def swapChildren (w : World) (p a b : NodeId) : OpOut Unit :=
  if a = b then ⟨w, [], [], Except.ok ()⟩
  else
    match getChildIndex w p a with
    | ⟨w1, evs, ls, Except.error e⟩ => ⟨w1, evs, ls, Except.error e⟩
    | ⟨w1, evs1, ls1, Except.ok index1⟩ =>
      match getChildIndex w1 p b with
      | ⟨w2, evs, ls, Except.error e⟩ => ⟨w2, evs1 ++ evs, ls1 ++ ls, Except.error e⟩
      | ⟨w2, evs2, ls2, Except.ok index2⟩ =>
        let w3 := setNode w2 p { w2 p with children := (w2 p).children.set index1.toNat b }
        let w4 := setNode w3 p { w3 p with children := (w3 p).children.set index2.toNat a }
        ⟨w4, evs1 ++ evs2, ls1 ++ ls2, Except.ok ()⟩

/-- Reference description of the notification sequence of a bulk
removal, following the spec's words (4.1): for each removed node, in
collected order and with its 0-based batch position, a `childRemoved`
on the parent followed by a `removed` on the child, every one observing
the same committed world `w`. -/
def emitSpec (p : NodeId) (w : World) : List (Nat × NodeId) → List EmitRec
  | [] => []
  | (i, r) :: rest =>
    ⟨Event.childRemoved p r i, w⟩ :: ⟨Event.removed r p, w⟩ :: emitSpec p w rest

/-- A default node: empty children, detached, all flags clear. -/
def emptyNode : Node := ⟨[], none, false, false, 0, false, false, false⟩

/-- A small concrete world for witnesses: node 0 has children `[1, 2]`,
nodes 1 and 2 point back to it, everything else is detached. -/
def wEx : World := fun n =>
  if n = 0 then { emptyNode with children := [1, 2] }
  else if n = 1 then { emptyNode with parent := some 0 }
  else if n = 2 then { emptyNode with parent := some 0 }
  else emptyNode

/-- A second concrete world: node 4 owns node 3, alongside the `wEx`
family, so a reparenting move from 4 into 0 can be exercised. -/
def wEx2 : World := fun n =>
  if n = 0 then { emptyNode with children := [1, 2] }
  else if n = 1 then { emptyNode with parent := some 0 }
  else if n = 2 then { emptyNode with parent := some 0 }
  else if n = 3 then { emptyNode with parent := some 4 }
  else if n = 4 then { emptyNode with children := [3] }
  else emptyNode

/-! ### Basic lemmas -/

@[simp]
theorem setNode_self (w : World) (x : NodeId) (n : Node) : setNode w x n x = n := by
  simp [setNode]

theorem setNode_other (w : World) (x y : NodeId) (n : Node) (h : y ≠ x) :
    setNode w x n y = w y := by
  simp [setNode, h]

theorem listGetI_ofNat (l : List NodeId) (n : Nat) : listGetI l (n : Int) = l.get? n := by
  simp [listGetI]

theorem listGetI_eq_some {l : List NodeId} {i : Int} {c : NodeId}
    (h : listGetI l i = some c) : 0 ≤ i ∧ l.get? i.toNat = some c := by
  unfold listGetI at h
  by_cases h0 : i < 0
  · simp [h0] at h
  · simp [h0] at h
    exact ⟨by omega, by rw [List.get?_eq_getElem?]; exact h⟩

theorem jsIndexOf_eq_neg_one {l : List NodeId} {c : NodeId} (h : c ∉ l) :
    jsIndexOf l c = -1 := by
  induction l with
  | nil => rfl
  | cons x xs ih =>
    have hx : x ≠ c := by intro hxc; exact h (hxc ▸ List.mem_cons_self x xs)
    have hc : c ∉ xs := fun hm => h (List.mem_cons_of_mem _ hm)
    simp [jsIndexOf, hx, ih hc]

theorem jsIndexOf_mem {l : List NodeId} {c : NodeId} (h : c ∈ l) :
    0 ≤ jsIndexOf l c ∧ l.get? (jsIndexOf l c).toNat = some c := by
  induction l with
  | nil => cases h
  | cons x xs ih =>
    by_cases hx : x = c
    · subst hx; simp [jsIndexOf]
    · have hc : c ∈ xs := by
        rcases List.mem_cons.mp h with h1 | h1
        · exact absurd h1.symm hx
        · exact h1
      obtain ⟨h0, hget⟩ := ih hc
      have hne : jsIndexOf xs c ≠ -1 := by omega
      have htn : (jsIndexOf xs c + 1).toNat = (jsIndexOf xs c).toNat + 1 := by omega
      refine ⟨?_, ?_⟩
      · simp only [jsIndexOf, hx, if_false, hne]
        omega
      · simp only [jsIndexOf, hx, if_false, hne, htn]
        simpa using hget

theorem jsIndexOf_not_mem_iff {l : List NodeId} {c : NodeId} :
    jsIndexOf l c = -1 ↔ c ∉ l := by
  constructor
  · intro h hm
    have := (jsIndexOf_mem hm).1
    omega
  · exact jsIndexOf_eq_neg_one

theorem jsIndexOf_lt_length {l : List NodeId} {c : NodeId} (h : c ∈ l) :
    (jsIndexOf l c).toNat < l.length := by
  have := (jsIndexOf_mem h).2
  have := List.get?_eq_some.mp this
  exact this.1

theorem jsIndexOf_of_get? {l : List NodeId} {c : NodeId} {n : Nat}
    (hnd : l.Nodup) (h : l.get? n = some c) : jsIndexOf l c = (n : Int) := by
  induction l generalizing n with
  | nil => simp at h
  | cons x xs ih =>
    cases n with
    | zero =>
      simp at h
      simp [jsIndexOf, h]
    | succ n =>
      have hget : xs.get? n = some c := h
      have hc : c ∈ xs := List.get?_mem hget
      have hx : x ≠ c := by
        intro hxc
        exact (List.nodup_cons.mp hnd).1 (hxc ▸ hc)
      have hr := ih (List.nodup_cons.mp hnd).2 hget
      have hne : jsIndexOf xs c ≠ -1 := by omega
      simp only [jsIndexOf, hx, if_false, hne, hr]
      push_cast
      ring

theorem spliceInsert_length {l : List NodeId} {n : Nat} (c : NodeId) (h : n ≤ l.length) :
    (spliceInsert l n c).length = l.length + 1 := by
  simp [spliceInsert]
  omega

theorem spliceInsert_get? {l : List NodeId} {n : Nat} (c : NodeId) (h : n ≤ l.length) :
    (spliceInsert l n c).get? n = some c := by
  unfold spliceInsert
  have hlen : (l.take n).length = n := by simp; omega
  rw [List.get?_append_right (by omega)]
  simp [hlen]

theorem mem_spliceInsert (l : List NodeId) (n : Nat) (c : NodeId) :
    c ∈ spliceInsert l n c := by
  simp [spliceInsert]

theorem spliceInsert_at_length (l : List NodeId) (c : NodeId) :
    spliceInsert l l.length c = l ++ [c] := by
  simp [spliceInsert]

/-! ### The notification loop of the bulk removal -/

theorem emitSpec_snap (p : NodeId) (w : World) (l : List (Nat × NodeId)) :
    ∀ rec ∈ emitSpec p w l, rec.snap = w := by
  induction l with
  | nil => intro rec h; cases h
  | cons hd tl ih =>
    obtain ⟨i, r⟩ := hd
    intro rec hrec
    rcases List.mem_cons.mp hrec with h1 | h1
    · subst h1; rfl
    · rcases List.mem_cons.mp h1 with h2 | h2
      · subst h2; rfl
      · exact ih rec h2

theorem emitLoop_eq_aux (p : NodeId) (w : World) (rs : List NodeId) :
    ∀ (k i : Nat), rs.length - i ≤ k →
      emitLoop p w rs i = emitSpec p w ((rs.drop i).enumFrom i) := by
  intro k
  induction k with
  | zero =>
    intro i hi
    have hlen : rs.length ≤ i := by omega
    rw [emitLoop, dif_neg (by omega), List.drop_eq_nil_of_le hlen]
    rfl
  | succ k ih =>
    intro i hi
    by_cases h : i < rs.length
    · have hdrop : rs.drop i = rs.get ⟨i, h⟩ :: rs.drop (i + 1) := by
        rw [List.drop_eq_getElem_cons h]
        rfl
      rw [emitLoop, dif_pos h, hdrop]
      have : List.enumFrom i (rs.get ⟨i, h⟩ :: rs.drop (i + 1)) =
          (i, rs.get ⟨i, h⟩) :: List.enumFrom (i + 1) (rs.drop (i + 1)) := rfl
      rw [this]
      show _ = ⟨Event.childRemoved p (rs.get ⟨i, h⟩) i, w⟩ ::
        ⟨Event.removed (rs.get ⟨i, h⟩) p, w⟩ :: emitSpec p w (List.enumFrom (i + 1) (rs.drop (i + 1)))
      rw [ih (i + 1) (by omega)]
    · have hlen : rs.length ≤ i := by omega
      rw [emitLoop, dif_neg h, List.drop_eq_nil_of_le hlen]
      rfl

theorem emitLoop_eq (p : NodeId) (w : World) (rs : List NodeId) :
    emitLoop p w rs 0 = emitSpec p w rs.enum := by
  have := emitLoop_eq_aux p w rs rs.length 0 (by omega)
  simpa using this

theorem emitLoop_snap (p : NodeId) (w : World) (rs : List NodeId) :
    ∀ rec ∈ emitLoop p w rs 0, rec.snap = w := by
  rw [emitLoop_eq]
  exact emitSpec_snap p w rs.enum

/-! ### The detachment loop of the bulk removal -/

theorem rcLoop_spec (p : NodeId) (L : List NodeId) (b : Nat) :
    ∀ (fuel : Nat) (w : World) (rs : List NodeId) (ls : List LayerOp),
      (rcLoop p L fuel ((b : Int) + fuel - 1) w rs ls).2.1
          = rs ++ ((L.take (b + fuel)).drop b).reverse
      ∧ ∀ x : NodeId,
          ((rcLoop p L fuel ((b : Int) + fuel - 1) w rs ls).1 x).parent
            = if x ∈ (L.take (b + fuel)).drop b then none else (w x).parent := by
  intro fuel
  induction fuel with
  | zero =>
    intro w rs ls
    have hnil : (L.take (b + 0)).drop b = [] := by
      apply List.drop_eq_nil_of_le
      simp
    rw [rcLoop, hnil]
    exact ⟨by simp, fun x => by simp⟩
  | succ fuel ih =>
    intro w rs ls
    have hadd : b + (fuel + 1) = b + fuel + 1 := rfl
    rw [hadd]
    have hidx : (b : Int) + (fuel + 1 : Nat) - 1 = ((b + fuel : Nat) : Int) := by
      push_cast; ring
    by_cases h : b + fuel < L.length
    · -- the current index is in range: the child is collected
      have hget : listGetI L ((b : Int) + (fuel + 1 : Nat) - 1) = some (L.get ⟨b + fuel, h⟩) := by
        rw [hidx, listGetI_ofNat, List.get?_eq_get h]
      have htake : L.take (b + fuel + 1) = L.take (b + fuel) ++ [L.get ⟨b + fuel, h⟩] := by
        rw [List.take_succ]
        congr 1
        rw [List.getElem?_eq_getElem h]
        rfl
      have hlen : b ≤ (L.take (b + fuel)).length := by
        simp
        omega
      have hdrop : (L.take (b + fuel + 1)).drop b
          = (L.take (b + fuel)).drop b ++ [L.get ⟨b + fuel, h⟩] := by
        rw [htake, List.drop_append_eq_append_drop]
        have : b - (L.take (b + fuel)).length = 0 := by omega
        rw [this]
        rfl
      have hrec : ((b : Int) + (fuel + 1 : Nat) - 1) - 1 = (b : Int) + fuel - 1 := by
        push_cast; ring
      rw [rcLoop, hget]
      simp only [hrec]
      set c := L.get ⟨b + fuel, h⟩ with hc
      obtain ⟨ih1, ih2⟩ := ih (setNode w c { w c with parent := none }) (rs ++ [c])
        (ls ++ (if (w p).layerGroup then [LayerOp.removeChild p c] else []))
      constructor
      · rw [ih1, hdrop]
        simp
      · intro x
        rw [ih2 x, hdrop]
        by_cases hx1 : x ∈ (L.take (b + fuel)).drop b
        · simp [hx1]
        · by_cases hx2 : x = c
          · subst hx2
            simp [hx1]
          · rw [if_neg hx1, setNode_other _ _ _ _ hx2, if_neg]
            simp [hx1, hx2]
    · -- the current index is past the end: `children[i]` is undefined, skipped
      have hget : listGetI L ((b : Int) + (fuel + 1 : Nat) - 1) = none := by
        rw [hidx, listGetI_ofNat, List.get?_eq_none.mpr (by omega)]
      have htake : L.take (b + fuel + 1) = L.take (b + fuel) := by
        rw [List.take_of_length_le (by omega), List.take_of_length_le (by omega)]
      have hrec : ((b : Int) + (fuel + 1 : Nat) - 1) - 1 = (b : Int) + fuel - 1 := by
        push_cast; ring
      rw [rcLoop, hget]
      simp only [hrec]
      rw [htake]
      exact ih w rs ls

/-! ### Master characterization of a valid bulk removal -/

theorem removeChildren_valid (w : World) (p : NodeId) (beginIndex : Int) (endIndex : Option Int)
    (hb : 0 ≤ beginIndex)
    (he : beginIndex < endIndex.getD (((w p).children.length : Int))) :
    (removeChildren w p beginIndex endIndex).ret
        = Except.ok ((((w p).children.take (endIndex.getD (((w p).children.length : Int))).toNat).drop
            beginIndex.toNat).reverse)
    ∧ ((removeChildren w p beginIndex endIndex).world p).children
        = (w p).children.take beginIndex.toNat
            ++ (w p).children.drop (endIndex.getD (((w p).children.length : Int))).toNat
    ∧ (∀ x, ((removeChildren w p beginIndex endIndex).world x).parent
        = if x ∈ (((w p).children.take
              (endIndex.getD (((w p).children.length : Int))).toNat).drop beginIndex.toNat).reverse
          then none else (w x).parent)
    ∧ (removeChildren w p beginIndex endIndex).events
        = emitLoop p (removeChildren w p beginIndex endIndex).world
            ((((w p).children.take (endIndex.getD (((w p).children.length : Int))).toNat).drop
              beginIndex.toNat).reverse) 0 := by
  have hcond : 0 < endIndex.getD (((w p).children.length : Int)) - beginIndex
      ∧ endIndex.getD (((w p).children.length : Int)) - beginIndex
          ≤ endIndex.getD (((w p).children.length : Int)) := ⟨by omega, by omega⟩
  have hfuel : endIndex.getD (((w p).children.length : Int)) - 1
      = (beginIndex.toNat : Int)
          + ((endIndex.getD (((w p).children.length : Int)) - beginIndex).toNat : Int) - 1 := by
    omega
  have hbf : beginIndex.toNat + (endIndex.getD (((w p).children.length : Int)) - beginIndex).toNat
      = (endIndex.getD (((w p).children.length : Int))).toNat := by omega
  obtain ⟨h1, h2⟩ := rcLoop_spec p (w p).children beginIndex.toNat
    ((endIndex.getD (((w p).children.length : Int)) - beginIndex).toNat) w [] []
  rw [hbf] at h1 h2
  rw [List.nil_append] at h1
  simp only [removeChildren, if_pos hcond, ← hfuel] at h1 h2 ⊢
  refine ⟨by rw [h1], ?_, ?_, by rw [h1]⟩
  · simp [removeItems]
  · intro x
    by_cases hx : x = p
    · rw [hx, setNode_self]
      simp only [List.mem_reverse]
      exact h2 p
    · rw [setNode_other _ _ _ _ hx, h2 x]
      simp only [List.mem_reverse]

/-! ### The shared insertion tail of addChildAt -/

theorem addChildAtInsert_ret (w : World) (p c : NodeId) (index : Int) :
    (addChildAtInsert w p c index).ret = Except.ok c := rfl

theorem addChildAtInsert_events (w : World) (p c : NodeId) (index : Int) :
    (addChildAtInsert w p c index).events
      = [⟨Event.childAdded p c index, (addChildAtInsert w p c index).world⟩,
         ⟨Event.added c p, (addChildAtInsert w p c index).world⟩] := rfl

theorem sortStep_parent (P : Prop) [Decidable P] (w2 : World) (p x : NodeId) :
    ((if P then setNode w2 p { w2 p with sortDirty := true } else w2) x).parent
      = (w2 x).parent := by
  split
  · by_cases hx : x = p
    · rw [hx, setNode_self]
    · rw [setNode_other _ _ _ _ hx]
  · rfl

theorem sortStep_children (P : Prop) [Decidable P] (w2 : World) (p x : NodeId) :
    ((if P then setNode w2 p { w2 p with sortDirty := true } else w2) x).children
      = (w2 x).children := by
  split
  · by_cases hx : x = p
    · rw [hx, setNode_self]
    · rw [setNode_other _ _ _ _ hx]
  · rfl

theorem addChildAtInsert_parent (w : World) (p c : NodeId) (index : Int) :
    ((addChildAtInsert w p c index).world c).parent = some p := by
  simp only [addChildAtInsert]
  rw [sortStep_parent, setNode_self]

theorem addChildAtInsert_mem (w : World) (p c : NodeId) (index : Int) :
    c ∈ ((addChildAtInsert w p c index).world p).children := by
  have hmem : c ∈ (if index = (((w p).children.length : Nat) : Int)
      then (w p).children ++ [c] else spliceInsert (w p).children index.toNat c) := by
    split
    · simp
    · exact mem_spliceInsert _ _ _
  simp only [addChildAtInsert]
  rw [sortStep_children]
  by_cases hcp : p = c
  · rw [hcp, setNode_self]
    show c ∈ ((setNode w c _) c).children
    rw [setNode_self]
    exact hcp ▸ hmem
  · rw [setNode_other _ _ _ _ hcp, setNode_self]
    exact hmem

theorem addChildAtInsert_children (w : World) (p c : NodeId) (index : Int)
    (h0 : 0 ≤ index) (hle : index ≤ ((w p).children.length : Int)) :
    ((addChildAtInsert w p c index).world p).children
      = spliceInsert (w p).children index.toNat c := by
  have hif : (if index = (((w p).children.length : Nat) : Int)
      then (w p).children ++ [c] else spliceInsert (w p).children index.toNat c)
      = spliceInsert (w p).children index.toNat c := by
    split
    · next heq =>
      have hn : index.toNat = (w p).children.length := by omega
      rw [hn, spliceInsert_at_length]
    · rfl
  simp only [addChildAtInsert]
  rw [sortStep_children]
  by_cases hcp : p = c
  · rw [hcp, setNode_self]
    show ((setNode w c _) c).children = _
    rw [setNode_self]
    exact hcp ▸ hif
  · rw [setNode_other _ _ _ _ hcp, setNode_self]
    exact hif

/-! ### Frame facts: pure lookups return the world unchanged, error paths
mutate nothing -/

theorem getChildAt_eq (w : World) (p : NodeId) (index : Int) :
    getChildAt w p index = ⟨w, [], [], (getChildAt w p index).ret⟩ := by
  unfold getChildAt
  split <;> rfl

theorem getChildIndex_eq (w : World) (p c : NodeId) :
    getChildIndex w p c = ⟨w, [], [], (getChildIndex w p c).ret⟩ := by
  unfold getChildIndex
  by_cases h : jsIndexOf (w p).children c = -1 <;> simp [h]

theorem removeChild_ret (w : World) (p c : NodeId) :
    (removeChild w p c).ret = Except.ok c := by
  unfold removeChild
  by_cases h : jsIndexOf (w p).children c = -1 <;> simp [h]

theorem retFailed_map {α β : Type} (r : Except JsError α) (f : α → β) :
    retFailed (r.map f) = retFailed r := by
  cases r <;> rfl

theorem getChildAt_ret_ok {w' : World} {p : NodeId} {index : Int} {c : NodeId}
    (h0 : 0 ≤ index) (h : (w' p).children.get? index.toNat = some c) :
    (getChildAt w' p index).ret = Except.ok c := by
  have hlt : index.toNat < (w' p).children.length := (List.get?_eq_some.mp h).1
  have hb : ¬(index < 0 ∨ ((w' p).children.length : Int) ≤ index) := by omega
  simp only [getChildAt, if_neg hb]
  show Except.ok ((w' p).children.getD index.toNat 0) = Except.ok c
  rw [List.getD_eq_getElem?_getD, ← List.get?_eq_getElem?, h]
  rfl

theorem removeChildren_err_frame (w : World) (p : NodeId) (beginIndex : Int)
    (endIndex : Option Int)
    (h : retFailed (removeChildren w p beginIndex endIndex).ret = true) :
    (removeChildren w p beginIndex endIndex).world = w
      ∧ (removeChildren w p beginIndex endIndex).events = [] := by
  simp only [removeChildren] at h ⊢
  by_cases h1 : 0 < endIndex.getD (((w p).children.length : Int)) - beginIndex
      ∧ endIndex.getD (((w p).children.length : Int)) - beginIndex
          ≤ endIndex.getD (((w p).children.length : Int))
  · rw [if_pos h1] at h
    simp [retFailed] at h
  · rw [if_neg h1] at h ⊢
    by_cases h2 : endIndex.getD (((w p).children.length : Int)) - beginIndex = 0
        ∧ (w p).children.length = 0
    · rw [if_pos h2] at h
      simp [retFailed] at h
    · rw [if_neg h2]
      exact ⟨rfl, rfl⟩

theorem addChildAt_err_frame (w : World) (p c : NodeId) (index : Int)
    (h : retFailed (addChildAt w p c index).ret = true) :
    (addChildAt w p c index).world = w ∧ (addChildAt w p c index).events = [] := by
  by_cases hb : index < 0 ∨ ((w p).children.length : Int) < index
  · simp [addChildAt, hb]
  · exfalso
    cases hp : (w c).parent with
    | none => simp [addChildAt, hb, hp, addChildAtInsert_ret, retFailed] at h
    | some q =>
      by_cases hq : q = p ∧ jsIndexOf (w q).children c = index
      · obtain ⟨hq1, hq2⟩ := hq
        subst hq1
        simp [addChildAt, hb, hp, hq2, retFailed] at h
      · simp [addChildAt, hb, hp, hq, addChildAtInsert_ret, retFailed] at h

theorem getChildAt_err_frame (w : World) (p : NodeId) (index : Int) :
    (getChildAt w p index).world = w ∧ (getChildAt w p index).events = [] := by
  rw [getChildAt_eq]
  exact ⟨rfl, rfl⟩

theorem getChildIndex_err_frame (w : World) (p c : NodeId) :
    (getChildIndex w p c).world = w ∧ (getChildIndex w p c).events = [] := by
  rw [getChildIndex_eq]
  exact ⟨rfl, rfl⟩

theorem removeChildAt_err_frame (w : World) (p : NodeId) (index : Int)
    (h : retFailed (removeChildAt w p index).ret = true) :
    (removeChildAt w p index).world = w ∧ (removeChildAt w p index).events = [] := by
  by_cases hb : index < 0 ∨ ((w p).children.length : Int) ≤ index
  · simp [removeChildAt, getChildAt, hb]
  · exfalso
    simp [removeChildAt, getChildAt, hb, removeChild_ret, retFailed] at h

theorem setChildIndex_err_frame (w : World) (p c : NodeId) (index : Int)
    (h : retFailed (setChildIndex w p c index).ret = true) :
    (setChildIndex w p c index).world = w ∧ (setChildIndex w p c index).events = [] := by
  by_cases hb : index < 0 ∨ ((w p).children.length : Int) ≤ index
  · simp [setChildIndex, hb]
  · by_cases hm : jsIndexOf (w p).children c = -1
    · simp [setChildIndex, getChildIndex, hb, hm]
    · have h2 : retFailed (addChildAt w p c index).ret = true := by
        simpa [setChildIndex, getChildIndex, hb, hm, retFailed_map] using h
      obtain ⟨hw, hev⟩ := addChildAt_err_frame w p c index h2
      simp [setChildIndex, getChildIndex, hb, hm, hw, hev]

theorem swapChildren_err_frame (w : World) (p a b : NodeId)
    (h : retFailed (swapChildren w p a b).ret = true) :
    (swapChildren w p a b).world = w ∧ (swapChildren w p a b).events = [] := by
  by_cases hab : a = b
  · simp [swapChildren, hab, retFailed] at h
  · by_cases ha : jsIndexOf (w p).children a = -1
    · simp [swapChildren, getChildIndex, hab, ha]
    · by_cases hbm : jsIndexOf (w p).children b = -1
      · simp [swapChildren, getChildIndex, hab, ha, hbm]
      · exfalso
        simp [swapChildren, getChildIndex, hab, ha, hbm, retFailed] at h

/-- An element picked from the removed slice `[bn, en)` of a
duplicate-free list does not survive into the spliced remainder. -/
theorem not_mem_removeItems_of_mem_slice {L : List NodeId} (hnd : L.Nodup) {bn en : Nat}
    {r : NodeId} (hr : r ∈ (L.take en).drop bn) : r ∉ L.take bn ++ L.drop en := by
  obtain ⟨k, hk, hkr⟩ := List.mem_iff_getElem.mp hr
  have hk2 : bn + k < (L.take en).length := by
    simp only [List.length_drop] at hk
    omega
  have hk3 : bn + k < L.length := by
    simp only [List.length_take] at hk2
    omega
  have hken : bn + k < en := by
    simp only [List.length_take] at hk2
    omega
  have hj : L.get ⟨bn + k, hk3⟩ = r := by
    rw [List.get_eq_getElem, ← hkr, List.getElem_drop, List.getElem_take]
  intro hmem
  rcases List.mem_append.mp hmem with hm | hm
  · obtain ⟨m, hm1, hm2⟩ := List.mem_iff_getElem.mp hm
    have hmb : m < bn := by
      simp only [List.length_take] at hm1
      omega
    have hm3 : m < L.length := by
      simp only [List.length_take] at hm1
      omega
    have heq : L.get ⟨m, hm3⟩ = L.get ⟨bn + k, hk3⟩ := by
      rw [hj, List.get_eq_getElem, ← hm2, List.getElem_take]
    have hfin := (List.Nodup.get_inj_iff hnd).mp heq
    have : m = bn + k := Fin.mk.inj_iff.mp hfin
    omega
  · obtain ⟨m, hm1, hm2⟩ := List.mem_iff_getElem.mp hm
    have hm3 : en + m < L.length := by
      simp only [List.length_drop] at hm1
      omega
    have heq : L.get ⟨en + m, hm3⟩ = L.get ⟨bn + k, hk3⟩ := by
      rw [hj, List.get_eq_getElem, ← hm2, List.getElem_drop]
    have hfin := (List.Nodup.get_inj_iff hnd).mp heq
    have : en + m = bn + k := Fin.mk.inj_iff.mp hfin
    omega

theorem get?_set_self (l : List NodeId) (n : Nat) (x : NodeId) (h : n < l.length) :
    (l.set n x).get? n = some x := by
  induction l generalizing n with
  | nil => simp at h
  | cons a l ih =>
    cases n with
    | zero => rfl
    | succ n => exact ih n (by simpa using h)

theorem get?_set_other (l : List NodeId) (n m : Nat) (x : NodeId) (h : n ≠ m) :
    (l.set n x).get? m = l.get? m := by
  induction l generalizing n m with
  | nil => rfl
  | cons a l ih =>
    cases n with
    | zero =>
      cases m with
      | zero => exact absurd rfl h
      | succ m => rfl
    | succ n =>
      cases m with
      | zero => rfl
      | succ m => exact ih n m (by omega)

/-! ### Claim theorems -/

/-- C10: for every node `p` and every node `x` — member of `p.children`
or not — `swapChildren x x` returns without error and leaves the world,
the notifications, and the layer calls untouched: the identity
short-circuit precedes the membership check, so the not-a-child error
cannot fire for identical arguments. -/
theorem claim10_swap_self_total (w : World) (p x : NodeId) :
    swapChildren w p x x = ⟨w, [], [], Except.ok ()⟩ := by
  simp [swapChildren]

/-- C8: `swapChildren a b` on two distinct children exchanges exactly
their two slots of the parent's sequence — the final world is the input
world with only `p.children` doubly updated (so every parent
back-reference, every flag, and every other node is untouched), no
events are emitted and the layer index is not called; afterwards `a`
sits where `b` was and vice versa.  And `swapChildren a a` changes
nothing at all. -/
theorem claim8_swap_exchanges_exactly_two_slots :
    (∀ (w : World) (p a b : NodeId), a ≠ b → a ∈ (w p).children → b ∈ (w p).children →
      swapChildren w p a b
          = ⟨setNode w p { w p with children :=
                (((w p).children.set (jsIndexOf (w p).children a).toNat b).set
                  (jsIndexOf (w p).children b).toNat a) }, [], [], Except.ok ()⟩
        ∧ ((swapChildren w p a b).world p).children.get?
              (jsIndexOf (w p).children b).toNat = some a
        ∧ ((swapChildren w p a b).world p).children.get?
              (jsIndexOf (w p).children a).toNat = some b)
    ∧ (∀ (w : World) (p a : NodeId), swapChildren w p a a = ⟨w, [], [], Except.ok ()⟩) := by
  constructor
  · intro w p a b hab ha hb
    have hia : jsIndexOf (w p).children a ≠ -1 := fun h => (jsIndexOf_not_mem_iff.mp h) ha
    have hib : jsIndexOf (w p).children b ≠ -1 := fun h => (jsIndexOf_not_mem_iff.mp h) hb
    have hlena : (jsIndexOf (w p).children a).toNat < (w p).children.length :=
      jsIndexOf_lt_length ha
    have hlenb : (jsIndexOf (w p).children b).toNat < (w p).children.length :=
      jsIndexOf_lt_length hb
    have hgeta := (jsIndexOf_mem ha).2
    have hgetb := (jsIndexOf_mem hb).2
    have hne : (jsIndexOf (w p).children a).toNat ≠ (jsIndexOf (w p).children b).toNat := by
      intro hco
      rw [hco] at hgeta
      exact hab (Option.some.inj (hgeta.symm.trans hgetb))
    have heq : swapChildren w p a b
        = ⟨setNode w p { w p with children :=
              (((w p).children.set (jsIndexOf (w p).children a).toNat b).set
                (jsIndexOf (w p).children b).toNat a) }, [], [], Except.ok ()⟩ := by
      simp only [swapChildren, if_neg hab, getChildIndex, if_neg hia, if_neg hib]
      congr 1
      funext x
      by_cases hx : x = p
      · rw [hx]
        simp [setNode]
      · simp [setNode, hx]
    refine ⟨heq, ?_, ?_⟩
    · rw [heq]
      show ((setNode w p _) p).children.get? _ = some a
      rw [setNode_self]
      apply get?_set_self
      rw [List.length_set]
      exact hlenb
    · rw [heq]
      show ((setNode w p _) p).children.get? _ = some b
      rw [setNode_self]
      show (((w p).children.set _ b).set _ a).get? _ = some b
      rw [get?_set_other _ _ _ _ (fun h => hne h.symm)]
      exact get?_set_self _ _ _ hlena
  · intro w p a
    simp [swapChildren]

/-- C6: when the child's parent is already this node and the child
already occupies exactly the requested index (in a duplicate-free child
list), `addChildAt` is a complete no-op: it returns the child, leaves
the whole world untouched (children, parent links, all dirty flags),
emits nothing and performs no layer call. -/
theorem claim6_addChildAt_idempotent (w : World) (p c : NodeId) (i : Int)
    (hp : (w c).parent = some p)
    (hocc : listGetI (w p).children i = some c)
    (hnd : (w p).children.Nodup) :
    addChildAt w p c i = ⟨w, [], [], Except.ok c⟩ := by
  obtain ⟨h0, hget⟩ := listGetI_eq_some hocc
  have hlt : i.toNat < (w p).children.length := (List.get?_eq_some.mp hget).1
  have hb : ¬(i < 0 ∨ ((w p).children.length : Int) < i) := by omega
  have hidx : jsIndexOf (w p).children c = i := by
    rw [jsIndexOf_of_get? hnd hget]
    omega
  simp [addChildAt, hb, hp, hidx]

/-- C7: a reparenting `addChildAt` (the child currently belongs to a
different parent) emits exactly one `childAdded` on the new parent
followed by one `added` on the child, and nothing else — in particular
the implicit detach from the old parent fires no `removed` or
`childRemoved` events. -/
theorem claim7_reparent_emits_only_added (w : World) (p c q : NodeId) (i : Int)
    (h0 : 0 ≤ i) (hle : i ≤ ((w p).children.length : Int))
    (hq : (w c).parent = some q) (hqp : q ≠ p) :
    (addChildAt w p c i).events.map EmitRec.ev
        = [Event.childAdded p c i, Event.added c p]
    ∧ (addChildAt w p c i).ret = Except.ok c := by
  have hb : ¬(i < 0 ∨ ((w p).children.length : Int) < i) := by omega
  have hcond : ¬(q = p ∧ jsIndexOf (w q).children c = i) := fun hc => hqp hc.1
  simp only [addChildAt, if_neg hb, hq, if_neg hcond]
  exact ⟨by rw [addChildAtInsert_events]; rfl, addChildAtInsert_ret _ _ _ _⟩

/-- C3 counterexample: `removeChildren(-1, 0)` has a strictly positive
range `0 - (-1) = 1`, yet the call raises the RangeError — the claim's
"for every pair of arguments with endIndex - beginIndex > 0 the call is
valid and does not raise" fails for a negative `beginIndex`. -/
theorem claim3_counterexample :
    (0 : Int) - (-1) > 0
    ∧ (removeChildren wEx 0 (-1) (some 0)).ret
        = Except.error (JsError.rangeError rcErrMsg) :=
  ⟨by decide, by rfl⟩

/-- C3 amended: `removeChildren` raises its RangeError exactly when the
range `endIndex - beginIndex` (endIndex defaulting to the length) is
not positive or `beginIndex` is negative, except the one case of a zero
range on an already-empty child list, which succeeds with an empty
result.  (The original claim omitted the negative-`beginIndex`
condition, which the code's `range <= end` test enforces.) -/
theorem claim3_amended_error_iff (w : World) (p : NodeId) (beginIndex : Int)
    (endIndex : Option Int) :
    (removeChildren w p beginIndex endIndex).ret
        = Except.error (JsError.rangeError rcErrMsg)
      ↔ ((endIndex.getD (((w p).children.length : Int)) - beginIndex ≤ 0 ∨ beginIndex < 0)
          ∧ ¬(endIndex.getD (((w p).children.length : Int)) - beginIndex = 0
              ∧ (w p).children.length = 0)) := by
  simp only [removeChildren]
  by_cases h1 : 0 < endIndex.getD (((w p).children.length : Int)) - beginIndex
      ∧ endIndex.getD (((w p).children.length : Int)) - beginIndex
          ≤ endIndex.getD (((w p).children.length : Int))
  · rw [if_pos h1]
    simp only [Except.ok.injEq]
    constructor
    · intro h
      exact absurd h (by simp)
    · intro h
      omega
  · rw [if_neg h1]
    by_cases h2 : endIndex.getD (((w p).children.length : Int)) - beginIndex = 0
        ∧ (w p).children.length = 0
    · rw [if_pos h2]
      constructor
      · intro h
        exact absurd h (by simp)
      · intro h
        exact absurd h2 h.2
    · rw [if_neg h2]
      constructor
      · intro _
        exact ⟨by omega, h2⟩
      · intro _
        rfl

/-- C2 counterexample: on `wEx`, node 0 has children `[1, 2]` (length
2) and node 2 is its child; `addChildAt(2, 2)` with the inclusive upper
index succeeds and returns the child, yet `getChildAt(2)` afterwards
fails and the child list is still `[1, 2]`: the same-parent
"append move" splices the child out first, so it lands at index 1, not
2. -/
theorem claim2_counterexample :
    (wEx 0).children.length = 2
    ∧ (wEx 2).parent = some 0
    ∧ (addChildAt wEx 0 2 2).ret = Except.ok 2
    ∧ retFailed (getChildAt (addChildAt wEx 0 2 2).world 0 2).ret = true
    ∧ ((addChildAt wEx 0 2 2).world 0).children = [1, 2] :=
  ⟨by decide, by decide, by rfl, by decide, by decide⟩

/-- C2 amended: for every index `i` in `[0, length]`, after
`addChildAt(c, i)` the lookup `getChildAt(i)` returns `c` and
`c.parent` is the target node — except in the same-parent append-move
case (`c` already a child of the target while `i` equals the current
length), where the prior splice shortens the list and `c` ends at the
last index instead. -/
theorem claim2_amended_addChildAt_getChildAt (w : World) (p c : NodeId) (i : Int)
    (h0 : 0 ≤ i) (hle : i ≤ ((w p).children.length : Int))
    (hx : ¬((w c).parent = some p ∧ c ∈ (w p).children
        ∧ i = ((w p).children.length : Int))) :
    (addChildAt w p c i).ret = Except.ok c
    ∧ (getChildAt (addChildAt w p c i).world p i).ret = Except.ok c
    ∧ ((addChildAt w p c i).world c).parent = some p := by
  have hb : ¬(i < 0 ∨ ((w p).children.length : Int) < i) := by omega
  cases hp : (w c).parent with
  | none =>
    simp only [addChildAt, if_neg hb, hp]
    refine ⟨addChildAtInsert_ret _ _ _ _, ?_, addChildAtInsert_parent _ _ _ _⟩
    apply getChildAt_ret_ok h0
    rw [addChildAtInsert_children w p c i h0 hle]
    exact spliceInsert_get? c (by omega)
  | some q =>
    by_cases hqi : q = p ∧ jsIndexOf (w q).children c = i
    · obtain ⟨hq1, hq2⟩ := hqi
      subst hq1
      have hcmem : c ∈ (w q).children := by
        by_contra hcm
        rw [jsIndexOf_eq_neg_one hcm] at hq2
        omega
      have hget : (w q).children.get? i.toNat = some c := by
        have hg := (jsIndexOf_mem hcmem).2
        rw [hq2] at hg
        exact hg
      simp only [addChildAt, if_neg hb, hp, hq2, eq_self_iff_true, true_and, and_self,
        if_true]
      exact ⟨getChildAt_ret_ok h0 hget, trivial⟩
    · have key : ∀ w1 : World, i ≤ ((w1 p).children.length : Int) →
          (getChildAt (addChildAtInsert w1 p c i).world p i).ret = Except.ok c := by
        intro w1 hle1
        apply getChildAt_ret_ok h0
        rw [addChildAtInsert_children w1 p c i h0 hle1]
        exact spliceInsert_get? c (by omega)
      simp only [addChildAt, if_neg hb, hp, if_neg hqi]
      refine ⟨addChildAtInsert_ret _ _ _ _, key _ ?_, addChildAtInsert_parent _ _ _ _⟩
      by_cases hcur : jsIndexOf (w q).children c = -1
      · rw [if_pos hcur]
        exact hle
      · rw [if_neg hcur]
        by_cases hqp : q = p
        · subst hqp
          have hcmem : c ∈ (w q).children := by
            by_contra hcm
            exact hcur (jsIndexOf_eq_neg_one hcm)
          have hilen : i ≠ ((w q).children.length : Int) := fun hi => hx ⟨hp, hcmem, hi⟩
          have hlt := jsIndexOf_lt_length hcmem
          rw [setNode_self]
          show i ≤ (((w q).children.eraseIdx (jsIndexOf (w q).children c).toNat).length : Int)
          rw [List.length_eraseIdx]
          simp only [hlt, if_pos]
          omega
        · rw [setNode_other _ _ _ _ (fun h => hqp h.symm)]
          exact hle

/-- C4 counterexample: on `wEx`, node 0 has a single relevant slice —
`removeChildren(0, 3)` has `e - b = 3 > 0` and is accepted (the code
only requires `range <= end`), but only the 2 existing children are
removed and returned, not `e - b = 3` elements. -/
theorem claim4_counterexample :
    (3 : Int) - 0 > 0
    ∧ (removeChildren wEx 0 0 (some 3)).ret = Except.ok [2, 1]
    ∧ ([2, 1] : List NodeId).length ≠ ((3 : Int) - 0).toNat :=
  ⟨by decide, by rfl, by decide⟩

/-- C4 amended: for `0 ≤ b < e ≤ length`, `removeChildren(b, e)`
removes exactly `e - b` elements — the returned list is the slice
`[b, e)` reversed (element at `e-1` first, element at `b` last), the
child list keeps exactly the outside of the range, and every returned
element's parent back-reference is cleared.  (The original claim, for
arbitrary `e > b`, fails because an `e` beyond the current length is
accepted and silently clipped.) -/
theorem claim4_amended_range_law (w : World) (p : NodeId) (b : Int) (eo : Option Int)
    (hb : 0 ≤ b) (hlt : b < eo.getD (((w p).children.length : Int)))
    (hle : eo.getD (((w p).children.length : Int)) ≤ ((w p).children.length : Int)) :
    (removeChildren w p b eo).ret
        = Except.ok ((((w p).children.take
            (eo.getD (((w p).children.length : Int))).toNat).drop b.toNat).reverse)
    ∧ ((((w p).children.take
          (eo.getD (((w p).children.length : Int))).toNat).drop b.toNat).reverse).length
        = (eo.getD (((w p).children.length : Int)) - b).toNat
    ∧ ((removeChildren w p b eo).world p).children
        = (w p).children.take b.toNat
            ++ (w p).children.drop (eo.getD (((w p).children.length : Int))).toNat
    ∧ ((removeChildren w p b eo).world p).children.length
        = (w p).children.length - (eo.getD (((w p).children.length : Int)) - b).toNat
    ∧ List.Forall (fun r => ((removeChildren w p b eo).world r).parent = none)
        ((((w p).children.take
            (eo.getD (((w p).children.length : Int))).toNat).drop b.toNat).reverse) := by
  obtain ⟨h1, h2, h3, _⟩ := removeChildren_valid w p b eo hb hlt
  refine ⟨h1, ?_, h2, ?_, ?_⟩
  · simp only [List.length_reverse, List.length_drop, List.length_take]
    omega
  · rw [h2]
    simp only [List.length_append, List.length_take, List.length_drop]
    omega
  · rw [List.forall_iff_forall_mem]
    intro r hr
    rw [h3 r, if_pos hr]

/-- C5: every valid bulk removal emits, only after the bulk splice
committed (each record snapshots the operation's final world), one
`childRemoved` on the parent per removed node — in collected order,
highest original index first, with the node's 0-based position within
the removal batch as positional argument — each followed by a `removed`
on that child; `emitSpec` is exactly this sequence. -/
theorem claim5_removal_notification_sequence (w : World) (p : NodeId) (b : Int)
    (eo : Option Int)
    (hb : 0 ≤ b) (hlt : b < eo.getD (((w p).children.length : Int))) :
    (removeChildren w p b eo).ret
        = Except.ok ((((w p).children.take
            (eo.getD (((w p).children.length : Int))).toNat).drop b.toNat).reverse)
    ∧ (removeChildren w p b eo).events
        = emitSpec p (removeChildren w p b eo).world
            (((((w p).children.take
              (eo.getD (((w p).children.length : Int))).toNat).drop b.toNat).reverse).enum) := by
  obtain ⟨h1, _, _, h4⟩ := removeChildren_valid w p b eo hb hlt
  exact ⟨h1, by rw [h4, emitLoop_eq]⟩

/-- C1: at the moment each notification of a mutating operation is
emitted, the observable world already is the final post-mutation state:
for `removeChildren` every listener sees each removed child absent from
the parent's (duplicate-free) child list with its parent cleared, and
for `addChildAt` (hence also `setChildIndex`, which relocates through
it) every listener sees the child present under the target parent with
its back-reference set. -/
theorem claim1_listeners_see_committed_state :
    (∀ (w : World) (p : NodeId) (b : Int) (eo : Option Int) (removed : List NodeId),
      (w p).children.Nodup →
      (removeChildren w p b eo).ret = Except.ok removed →
      List.Forall (fun rec =>
          List.Forall (fun r => r ∉ (rec.snap p).children ∧ (rec.snap r).parent = none)
            removed)
        (removeChildren w p b eo).events)
    ∧ (∀ (w : World) (p c : NodeId) (i : Int) (r : NodeId),
      (addChildAt w p c i).ret = Except.ok r →
      List.Forall (fun rec => c ∈ (rec.snap p).children ∧ (rec.snap c).parent = some p)
        (addChildAt w p c i).events) := by
  constructor
  · intro w p b eo removed hnd hret
    by_cases h1 : 0 < eo.getD (((w p).children.length : Int)) - b
        ∧ eo.getD (((w p).children.length : Int)) - b
            ≤ eo.getD (((w p).children.length : Int))
    · have hb0 : 0 ≤ b := by omega
      have hlt : b < eo.getD (((w p).children.length : Int)) := by omega
      obtain ⟨hr, hch, hpar, hev⟩ := removeChildren_valid w p b eo hb0 hlt
      have hrem : removed = (((w p).children.take
          (eo.getD (((w p).children.length : Int))).toNat).drop b.toNat).reverse := by
        rw [hret] at hr
        exact Except.ok.inj hr
      rw [List.forall_iff_forall_mem]
      intro rec hrec
      have hsnap : rec.snap = (removeChildren w p b eo).world := by
        rw [hev] at hrec
        exact emitLoop_snap _ _ _ rec hrec
      rw [List.forall_iff_forall_mem]
      intro r hrrem
      rw [hrem] at hrrem
      constructor
      · rw [hsnap, hch]
        exact not_mem_removeItems_of_mem_slice hnd (List.mem_reverse.mp hrrem)
      · rw [hsnap, hpar r, if_pos hrrem]
    · by_cases h2 : eo.getD (((w p).children.length : Int)) - b = 0
          ∧ (w p).children.length = 0
      · have hev : (removeChildren w p b eo).events = [] := by
          simp only [removeChildren]
          rw [if_neg h1, if_pos h2]
        rw [hev]
        trivial
      · have hko : (removeChildren w p b eo).ret
            = Except.error (JsError.rangeError rcErrMsg) := by
          simp only [removeChildren]
          rw [if_neg h1, if_neg h2]
        rw [hko] at hret
        cases hret
  · intro w p c i r hret
    by_cases hbnd : i < 0 ∨ ((w p).children.length : Int) < i
    · exfalso
      simp [addChildAt, hbnd] at hret
    · cases hp : (w c).parent with
      | none =>
        simp only [addChildAt, if_neg hbnd, hp]
        rw [addChildAtInsert_events]
        exact ⟨⟨addChildAtInsert_mem _ _ _ _, addChildAtInsert_parent _ _ _ _⟩,
          ⟨addChildAtInsert_mem _ _ _ _, addChildAtInsert_parent _ _ _ _⟩⟩
      | some q =>
        by_cases hqi : q = p ∧ jsIndexOf (w q).children c = i
        · obtain ⟨hq1, hq2⟩ := hqi
          subst hq1
          simp only [addChildAt, if_neg hbnd, hp, hq2, eq_self_iff_true, true_and,
            and_self, if_true]
          trivial
        · simp only [addChildAt, if_neg hbnd, hp, if_neg hqi]
          rw [addChildAtInsert_events]
          exact ⟨⟨addChildAtInsert_mem _ _ _ _, addChildAtInsert_parent _ _ _ _⟩,
            ⟨addChildAtInsert_mem _ _ _ _, addChildAtInsert_parent _ _ _ _⟩⟩

/-- C9: whenever an operation of the core raises, the state is exactly
as before the call — the world (children sequences, parent
back-references, all flag fields) is unchanged and no notification was
emitted; `getChildAt` and `getChildIndex` never touch the world at all
(error or not). -/
theorem claim9_error_atomicity :
    (∀ (w : World) (p : NodeId) (b : Int) (eo : Option Int),
      retFailed (removeChildren w p b eo).ret = true →
        (removeChildren w p b eo).world = w ∧ (removeChildren w p b eo).events = [])
    ∧ (∀ (w : World) (p : NodeId) (i : Int),
      retFailed (removeChildAt w p i).ret = true →
        (removeChildAt w p i).world = w ∧ (removeChildAt w p i).events = [])
    ∧ (∀ (w : World) (p : NodeId) (i : Int),
        (getChildAt w p i).world = w ∧ (getChildAt w p i).events = [])
    ∧ (∀ (w : World) (p c : NodeId),
        (getChildIndex w p c).world = w ∧ (getChildIndex w p c).events = [])
    ∧ (∀ (w : World) (p c : NodeId) (i : Int),
      retFailed (setChildIndex w p c i).ret = true →
        (setChildIndex w p c i).world = w ∧ (setChildIndex w p c i).events = [])
    ∧ (∀ (w : World) (p c : NodeId) (i : Int),
      retFailed (addChildAt w p c i).ret = true →
        (addChildAt w p c i).world = w ∧ (addChildAt w p c i).events = [])
    ∧ (∀ (w : World) (p a b : NodeId),
      retFailed (swapChildren w p a b).ret = true →
        (swapChildren w p a b).world = w ∧ (swapChildren w p a b).events = []) :=
  ⟨removeChildren_err_frame, removeChildAt_err_frame, getChildAt_err_frame,
    getChildIndex_err_frame, setChildIndex_err_frame, addChildAt_err_frame,
    swapChildren_err_frame⟩

/-! ### Witnesses: the hypothesised claim theorems applied at concrete
worlds -/

theorem claim1_witness :
    (wEx 0).children.Nodup
    ∧ (removeChildren wEx 0 0 none).ret = Except.ok [2, 1]
    ∧ List.Forall (fun rec =>
        List.Forall (fun r => r ∉ (rec.snap 0).children ∧ (rec.snap r).parent = none)
          [2, 1])
      (removeChildren wEx 0 0 none).events
    ∧ (addChildAt wEx2 0 3 1).ret = Except.ok 3
    ∧ List.Forall (fun rec => 3 ∈ (rec.snap 0).children ∧ (rec.snap 3).parent = some 0)
      (addChildAt wEx2 0 3 1).events :=
  ⟨by decide, by rfl,
    claim1_listeners_see_committed_state.1 wEx 0 0 none [2, 1] (by decide) (by rfl),
    by rfl,
    claim1_listeners_see_committed_state.2 wEx2 0 3 1 3 (by rfl)⟩

theorem claim2_witness :
    (0 : Int) ≤ 0 ∧ (0 : Int) ≤ ((wEx 0).children.length : Int)
    ∧ ¬((wEx 5).parent = some 0 ∧ 5 ∈ (wEx 0).children
        ∧ (0 : Int) = ((wEx 0).children.length : Int))
    ∧ (addChildAt wEx 0 5 0).ret = Except.ok 5
    ∧ (getChildAt (addChildAt wEx 0 5 0).world 0 0).ret = Except.ok 5
    ∧ ((addChildAt wEx 0 5 0).world 5).parent = some 0 :=
  ⟨by decide, by decide, by decide,
    (claim2_amended_addChildAt_getChildAt wEx 0 5 0 (by decide) (by decide) (by decide)).1,
    (claim2_amended_addChildAt_getChildAt wEx 0 5 0 (by decide) (by decide) (by decide)).2.1,
    (claim2_amended_addChildAt_getChildAt wEx 0 5 0 (by decide) (by decide) (by decide)).2.2⟩

theorem claim4_witness :
    (0 : Int) ≤ 0 ∧ (0 : Int) < (some (1 : Int)).getD (((wEx 0).children.length : Int))
    ∧ (some (1 : Int)).getD (((wEx 0).children.length : Int))
        ≤ ((wEx 0).children.length : Int)
    ∧ (removeChildren wEx 0 0 (some 1)).ret = Except.ok [1]
    ∧ ((removeChildren wEx 0 0 (some 1)).world 0).children = [2]
    ∧ ((removeChildren wEx 0 0 (some 1)).world 1).parent = none :=
  ⟨by decide, by decide, by decide,
    (claim4_amended_range_law wEx 0 0 (some 1) (by decide) (by decide) (by decide)).1,
    (claim4_amended_range_law wEx 0 0 (some 1) (by decide) (by decide) (by decide)).2.2.1,
    (claim4_amended_range_law wEx 0 0 (some 1) (by decide) (by decide) (by decide)).2.2.2.2⟩

theorem claim5_witness :
    (0 : Int) ≤ 0 ∧ (0 : Int) < (none : Option Int).getD (((wEx 0).children.length : Int))
    ∧ (removeChildren wEx 0 0 none).ret = Except.ok [2, 1]
    ∧ (removeChildren wEx 0 0 none).events
        = emitSpec 0 (removeChildren wEx 0 0 none).world [(0, 2), (1, 1)] :=
  ⟨by decide, by decide,
    (claim5_removal_notification_sequence wEx 0 0 none (by decide) (by decide)).1,
    (claim5_removal_notification_sequence wEx 0 0 none (by decide) (by decide)).2⟩

theorem claim6_witness :
    (wEx 2).parent = some 0
    ∧ listGetI (wEx 0).children 1 = some 2
    ∧ (wEx 0).children.Nodup
    ∧ addChildAt wEx 0 2 1 = ⟨wEx, [], [], Except.ok 2⟩ :=
  ⟨by decide, by decide, by decide,
    claim6_addChildAt_idempotent wEx 0 2 1 (by decide) (by decide) (by decide)⟩

theorem claim7_witness :
    (0 : Int) ≤ 1 ∧ (1 : Int) ≤ ((wEx2 0).children.length : Int)
    ∧ (wEx2 3).parent = some 4 ∧ (4 : NodeId) ≠ 0
    ∧ (addChildAt wEx2 0 3 1).events.map EmitRec.ev
        = [Event.childAdded 0 3 1, Event.added 3 0]
    ∧ (addChildAt wEx2 0 3 1).ret = Except.ok 3 :=
  ⟨by decide, by decide, by decide, by decide,
    (claim7_reparent_emits_only_added wEx2 0 3 4 1 (by decide) (by decide) (by decide)
      (by decide)).1,
    (claim7_reparent_emits_only_added wEx2 0 3 4 1 (by decide) (by decide) (by decide)
      (by decide)).2⟩

theorem claim8_witness :
    (1 : NodeId) ≠ 2 ∧ 1 ∈ (wEx 0).children ∧ 2 ∈ (wEx 0).children
    ∧ ((swapChildren wEx 0 1 2).world 0).children.get?
          (jsIndexOf (wEx 0).children 2).toNat = some 1
    ∧ ((swapChildren wEx 0 1 2).world 0).children.get?
          (jsIndexOf (wEx 0).children 1).toNat = some 2
    ∧ swapChildren wEx 5 9 9 = ⟨wEx, [], [], Except.ok ()⟩ :=
  ⟨by decide, by decide, by decide,
    (claim8_swap_exchanges_exactly_two_slots.1 wEx 0 1 2 (by decide) (by decide)
      (by decide)).2.1,
    (claim8_swap_exchanges_exactly_two_slots.1 wEx 0 1 2 (by decide) (by decide)
      (by decide)).2.2,
    claim8_swap_exchanges_exactly_two_slots.2 wEx 5 9⟩

theorem claim9_witness :
    retFailed (removeChildren wEx 0 3 (some 1)).ret = true
    ∧ (removeChildren wEx 0 3 (some 1)).world = wEx
    ∧ retFailed (removeChildAt wEx 0 5).ret = true
    ∧ (removeChildAt wEx 0 5).world = wEx
    ∧ (getChildAt wEx 0 9).world = wEx
    ∧ (getChildIndex wEx 0 9).world = wEx
    ∧ retFailed (setChildIndex wEx 0 1 5).ret = true
    ∧ (setChildIndex wEx 0 1 5).world = wEx
    ∧ retFailed (addChildAt wEx 0 1 (-1)).ret = true
    ∧ (addChildAt wEx 0 1 (-1)).world = wEx
    ∧ retFailed (swapChildren wEx 0 7 8).ret = true
    ∧ (swapChildren wEx 0 7 8).world = wEx :=
  ⟨rfl, (claim9_error_atomicity.1 wEx 0 3 (some 1) rfl).1,
    rfl, (claim9_error_atomicity.2.1 wEx 0 5 rfl).1,
    (claim9_error_atomicity.2.2.1 wEx 0 9).1,
    (claim9_error_atomicity.2.2.2.1 wEx 0 9).1,
    rfl, (claim9_error_atomicity.2.2.2.2.1 wEx 0 1 5 rfl).1,
    by decide, (claim9_error_atomicity.2.2.2.2.2.1 wEx 0 1 (-1) (by decide)).1,
    rfl, (claim9_error_atomicity.2.2.2.2.2.2 wEx 0 7 8 rfl).1⟩

end PixiScene
